import Mathlib
/-!
Shallow embedding of the dedup / cursor-tracking core of the twitter-scraper
repository: `src/services/dbService.js` (datastore), `src/utils/helpers.js`
(content filter), `src/services/twitterService.js` (since-id fetch filter),
and `src/scraper.js` (per-profile engine and run orchestrator).

Modelling conventions:
- JS objects holding dynamic keys (`profiles`, `processedTweets`) are
  association lists in insertion order; lodash `.set(key, v)` replaces the
  first binding in place or appends a fresh one, and lodash `.set` applied
  through a missing intermediate object is a silent no-op, both modelled
  explicitly below.
- Timestamps (`new Date().toISOString()` and date arithmetic) are naturals
  passed in as an explicit `now` argument; comparisons of ISO strings by
  `new Date` coincide with the numeric order.
- Post identifiers (`tweet.id` / `tweet.id_str`) are modelled as one natural
  number per post; the claims assume upstream identifiers are monotonically
  comparable, which makes the JS comparison agree with the numeric order.
- `crypto.createHash(sha256)` is an external library digest applied to the
  normalized text; equal inputs give equal digests, so the fingerprint is
  modelled by the normalized text itself (collision-freedom idealized).
-/
/-- Whitespace test for the regex class in `text.replace(/\s+/g, ' ')` and
for `String.prototype.trim` (ASCII subset). -/
def isWs (c : Char) : Bool :=
  c = ' ' || c = '\t' || c = '\n' || c = '\r' || c = '\x0b' || c = '\x0c'

/-- Engine of `text.replace(/\s+/g, ' ')`: each maximal whitespace run is
replaced by a single space. The flag records whether the previous character
was part of a whitespace run already emitted. -/
def collapseAux : Bool → List Char → List Char
  | _, [] => []
  | prevWs, c :: cs =>
    if isWs c then
      if prevWs then collapseAux true cs else ' ' :: collapseAux true cs
    else c :: collapseAux false cs

/-- `text.replace(/\s+/g, ' ')` on the character list of the text. -/
def collapseWs (l : List Char) : List Char := collapseAux false l

/-- Left half of `String.prototype.trim`. -/
def ltrim : List Char → List Char
  | [] => []
  | c :: cs => if isWs c then ltrim cs else c :: cs

/-- Right half of `String.prototype.trim`. -/
def rtrim : List Char → List Char
  | [] => []
  | c :: cs =>
    match rtrim cs with
    | [] => if isWs c then [] else [c]
    | r => c :: r

/-- `String.prototype.trim` on character lists. -/
def trimChars (l : List Char) : List Char := rtrim (ltrim l)

/-- `String.prototype.toLowerCase` on character lists. -/
def lowerChars (l : List Char) : List Char := l.map Char.toLower

/-- The normalization pipeline of `generateContentHash`:
`text.replace(/\s+/g, ' ').trim().toLowerCase()`. -/
def normChars (l : List Char) : List Char := lowerChars (trimChars (collapseWs l))

/-- String-level normalization; the SHA-256 hex digest the source then takes
of this string is modelled by the string itself (see header). -/
def normString (s : String) : String := String.mk (normChars s.data)

/-- A fetched post record, with the fields the core reads. `tweetId` stands
for both the `id` and `id_str` fields of the upstream record, which carry the
same identifier. `retweeted` models the presence of `retweeted_tweet`. -/
structure Tweet where
  tweetId : Nat
  text : Option String
  full_text : Option String
  created_at : String
  retweeted : Bool
  isReply : Bool
deriving DecidableEq

/-- JS `a || b` on optional strings: `undefined` and the empty string are
falsy and fall through to `b`. -/
def jsOr (a b : Option String) : Option String :=
  match a with
  | some s => if s = "" then b else some s
  | none => b

/-- `tweet.text || tweet.full_text || ''` as read by `generateContentHash`,
`markContentAsProcessed` and the content filter. -/
def effText (t : Tweet) : String := ((jsOr (jsOr t.text t.full_text) (some ""))).getD ""

/-- `DatabaseService.generateContentHash` (dbService.js 59-63): normalize the
effective text and digest it; the digest is modelled by the normalized text. -/
def generateContentHash (t : Tweet) : String := normString (effText t)

/-- One entry of a profile history list, as built by `recordTweet`. -/
structure TweetRecord where
  id : Nat
  text : Option String
  created_at : String
  processed_at : Nat
  sent_to_slack : Bool
  is_duplicate : Bool
deriving DecidableEq

/-- One entry of the global `processedTweets` fingerprint index, as built by
`markContentAsProcessed`. -/
structure ProcessedEntry where
  tweetId : Nat
  username : String
  processedAt : Nat
  content : String
deriving DecidableEq

/-- One profile record under `profiles`. `history := none` models a record
without a `history` property (as produced by `setLastTweetId`). -/
structure ProfileRecord where
  lastTweetId : Option Nat
  lastUpdated : Option Nat
  tweetCount : Nat
  history : Option (List TweetRecord)
deriving DecidableEq

/-- The persisted aggregate counters under `stats`. -/
structure StatsRecord where
  totalTweetsProcessed : Nat
  totalSlackMessagesSent : Nat
  duplicateTweetsSkipped : Nat
  lastRun : Option Nat
deriving DecidableEq

/-- The lowdb document owned by `DatabaseService`. -/
structure DbState where
  profiles : List (String × ProfileRecord)
  processedTweets : List (String × ProcessedEntry)
  stats : StatsRecord
deriving DecidableEq

/-- Property read on a JS object: first binding of the key, if any. -/
def aget (k : String) : List (String × β) → Option β
  | [] => none
  | (k', v) :: rest => if k' = k then some v else aget k rest

/-- Lodash `.set(key, value)` on a JS object: replace the first binding in
place, or append a fresh binding at the end (insertion order). -/
def aset (k : String) (v : β) : List (String × β) → List (String × β)
  | [] => [(k, v)]
  | (k', v') :: rest => if k' = k then (k, v) :: rest else (k', v') :: aset k v rest

/-- Lodash `.set` through a possibly-missing parent object: when the key is
absent the write is a silent no-op (lodash `_.set` on `undefined`). -/
def aupdate (k : String) (f : β → β) : List (String × β) → List (String × β)
  | [] => []
  | (k', v') :: rest => if k' = k then (k', f v') :: rest else (k', v') :: aupdate k f rest

/-- `DatabaseService.isDuplicateContent` (dbService.js 70-78): membership of
the fingerprint in the `processedTweets` index. Pure read. -/
def isDuplicateContent (s : DbState) (t : Tweet) : Bool :=
  (aget (generateContentHash t) s.processedTweets).isSome

/-- `DatabaseService.markContentAsProcessed` (dbService.js 85-103):
unconditionally `.set` the entry for the fingerprint. -/
def markContentAsProcessed (s : DbState) (t : Tweet) (username : String) (now : Nat) : DbState :=
  let entry : ProcessedEntry :=
    { tweetId := t.tweetId, username := username, processedAt := now, content := effText t }
  { s with processedTweets := aset (generateContentHash t) entry s.processedTweets }

/-- `DatabaseService.getLastTweetId` (dbService.js 110-117):
`profile?.lastTweetId || null` (identifiers are nonempty strings, so the
falsy fallback only catches the absent case). -/
def getLastTweetId (s : DbState) (username : String) : Option Nat :=
  (aget username s.profiles).bind (fun r => r.lastTweetId)

/-- `DatabaseService.setLastTweetId` (dbService.js 124-138): `.set` the
profile key to a fresh three-field object, carrying over only
`tweetCount || 0` incremented; any further fields of the previous record
(in particular `history`) are not copied. -/
def setLastTweetId (s : DbState) (username : String) (tweetId : Nat) (now : Nat) : DbState :=
  let fresh : ProfileRecord :=
    { lastTweetId := some tweetId
      lastUpdated := some now
      tweetCount := (((aget username s.profiles).map (fun r => r.tweetCount)).getD 0) + 1
      history := none }
  { s with profiles := aset username fresh s.profiles }

/-- The history record built at the top of `recordTweet`. -/
def tweetRecordOf (t : Tweet) (sentToSlack isDuplicate : Bool) (now : Nat) : TweetRecord :=
  { id := t.tweetId
    text := jsOr t.text t.full_text
    created_at := t.created_at
    processed_at := now
    sent_to_slack := sentToSlack
    is_duplicate := isDuplicate }

/-- `DatabaseService.recordTweet` (dbService.js 147-179): prepend the record
to the profile history (`unshift`), truncate to the first 100 when longer
(`splice(100)`), write it back through the profile key (a no-op when the
profile object is absent), and bump the lifetime counters. -/
def recordTweet (s : DbState) (username : String) (t : Tweet)
    (sentToSlack isDuplicate : Bool) (now : Nat) : DbState :=
  let tr := tweetRecordOf t sentToSlack isDuplicate now
  let bump := fun (r : ProfileRecord) =>
    let h := tr :: (r.history.getD [])
    { r with history := some (if h.length > 100 then h.take 100 else h) }
  let stats : StatsRecord :=
    { totalTweetsProcessed := s.stats.totalTweetsProcessed + 1
      totalSlackMessagesSent := s.stats.totalSlackMessagesSent + (if sentToSlack then 1 else 0)
      duplicateTweetsSkipped := s.stats.duplicateTweetsSkipped + (if isDuplicate then 1 else 0)
      lastRun := some now }
  { s with profiles := aupdate username bump s.profiles, stats := stats }

/-- The default object returned by `getProfileStats` for an unknown profile. -/
def defaultProfileStats : ProfileRecord :=
  { lastTweetId := none, lastUpdated := none, tweetCount := 0, history := some [] }

/-- `DatabaseService.getProfileStats` (dbService.js 225-237): the stored
record, or the fixed default object. Pure read. -/
def getProfileStats (s : DbState) (username : String) : ProfileRecord :=
  (aget username s.profiles).getD defaultProfileStats

/-- `getProfileStats` as a call on the datastore: the method issues no
`.write()`, so the document it returns alongside is the input one. -/
def getProfileStatsCall (s : DbState) (username : String) : ProfileRecord × DbState :=
  (getProfileStats s username, s)

/-- Thirty days in milliseconds, the retention window of `cleanup`. -/
def thirtyDaysMs : Nat := 30 * 24 * 60 * 60 * 1000

/-- Stable insertion of an index entry into a list sorted by `processedAt`
descending (the entry goes after every at-least-as-recent one). -/
def insertByProcessedDesc (x : String × ProcessedEntry) :
    List (String × ProcessedEntry) → List (String × ProcessedEntry)
  | [] => [x]
  | y :: ys =>
    if y.2.processedAt < x.2.processedAt then x :: y :: ys
    else y :: insertByProcessedDesc x ys

/-- The `tweetEntries.sort((a, b) => new Date(b[1].processedAt) - new
Date(a[1].processedAt))` of `cleanup`, modelled as a stable insertion sort
by `processedAt` descending. -/
def sortByProcessedDesc (l : List (String × ProcessedEntry)) : List (String × ProcessedEntry) :=
  l.foldr insertByProcessedDesc []

/-- `DatabaseService.cleanup` (dbService.js 254-297): drop history entries
older than thirty days for every profile that has a history property, and
when the fingerprint index holds more than 1000 entries keep the 1000 with
the most recent `processedAt`. -/
def cleanup (s : DbState) (now : Nat) : DbState :=
  let cutoff := now - thirtyDaysMs
  let profiles := s.profiles.map (fun p =>
    (p.1, { p.2 with history := p.2.history.map (fun h =>
      h.filter (fun tr => cutoff < tr.processed_at)) }))
  let entries := s.processedTweets
  { s with
    profiles := profiles
    processedTweets :=
      if entries.length > 1000 then (sortByProcessedDesc entries).take 1000 else entries }

/-- A profile configuration entry from `config/profiles.json`. -/
structure ProfileConfig where
  username : String
  displayName : String
  enabled : Bool
  includeRetweets : Bool
  includeReplies : Bool
  keywords : List String
deriving DecidableEq

/-- `matchesKeywords` (helpers.js): an empty keyword list matches everything,
otherwise some keyword must occur (case-insensitively) in the text. -/
def matchesKeywords (t : Tweet) (keywords : List String) : Bool :=
  if keywords.length = 0 then true
  else keywords.any (fun k => decide (List.IsInfix (k.toLower).data ((effText t).toLower).data))

/-- `shouldIncludeTweet` (helpers.js): retweet and reply gates, then the
keyword filter. -/
def shouldIncludeTweet (t : Tweet) (prof : ProfileConfig) : Bool :=
  if t.retweeted && !prof.includeRetweets then false
  else if t.isReply && !prof.includeReplies then false
  else matchesKeywords t prof.keywords

/-- The since-id filter at the tail of `TwitterService.fetchWithTwitterAPI`
(twitterService.js 163-168): when a cursor is stored and the fetched list is
nonempty, keep the posts with identifier strictly greater than the cursor. -/
def fetchFilter (sinceId : Option Nat) (allTweets : List Tweet) : List Tweet :=
  match sinceId with
  | some c => if 0 < allTweets.length then allTweets.filter (fun t => c < t.tweetId) else allTweets
  | none => allTweets

/-- The outcome of one `slackService.sendTweet` call as observed by the
engine loop: a returned boolean, or a thrown exception. -/
inductive DeliveryOutcome where
  | ok (sent : Bool)
  | threw
deriving DecidableEq

/-- The observable result of one per-profile cycle: the datastore, the list
of posts passed to `slackService.sendTweet` in order, and the run counters
the loop bumps. -/
structure EngineResult where
  state : DbState
  relayed : List Tweet
  sentCount : Nat
  newTweetsFound : Nat
deriving DecidableEq

/-- The delivery loop of `TwitterScraper.processProfile` (scraper.js
174-194): each filtered post is passed to `sendTweet`; on a returned
boolean the post is recorded and the cursor advanced; on a thrown exception
the post is recorded as not sent and the cursor is left alone. -/
def processTweets (deliver : Tweet → DeliveryOutcome) (username : String) (now : Nat) :
    DbState → List Tweet → EngineResult
  | s, [] => { state := s, relayed := [], sentCount := 0, newTweetsFound := 0 }
  | s, t :: ts =>
    match deliver t with
    | DeliveryOutcome.ok sent =>
      let s1 := recordTweet s username t sent false now
      let s2 := setLastTweetId s1 username t.tweetId now
      let r := processTweets deliver username now s2 ts
      { state := r.state
        relayed := t :: r.relayed
        sentCount := (if sent then 1 else 0) + r.sentCount
        newTweetsFound := 1 + r.newTweetsFound }
    | DeliveryOutcome.threw =>
      let s1 := recordTweet s username t false false now
      let r := processTweets deliver username now s1 ts
      { state := r.state
        relayed := t :: r.relayed
        sentCount := r.sentCount
        newTweetsFound := r.newTweetsFound }

/-- `TwitterScraper.processProfile` (scraper.js 141-197): read the cursor,
fetch (the upstream list then since-id filtered), return early on an empty
batch, apply the content filter, return early when nothing passes, then run
the delivery loop. -/
def processProfile (deliver : Tweet → DeliveryOutcome) (s : DbState) (prof : ProfileConfig)
    (upstream : List Tweet) (now : Nat) : EngineResult :=
  let tweets := fetchFilter (getLastTweetId s prof.username) upstream
  if tweets.length = 0 then
    { state := s, relayed := [], sentCount := 0, newTweetsFound := 0 }
  else
    let filteredTweets := tweets.filter (fun t => shouldIncludeTweet t prof)
    if filteredTweets.length = 0 then
      { state := s, relayed := [], sentCount := 0, newTweetsFound := 0 }
    else processTweets deliver prof.username now s filteredTweets

/-- The observable result of `TwitterScraper.run`: final datastore, the two
run counters the loop maintains, and the profiles iterated in order. -/
structure RunResult where
  state : DbState
  profilesChecked : Nat
  errors : Nat
  attempted : List String
deriving DecidableEq

/-- `TwitterScraper.run` (scraper.js 104-135): iterate the profiles; each
body is wrapped in try/catch, so a success bumps `profilesChecked`, an
exception bumps `errors` (the Slack error notification cannot throw), and
the loop continues either way. The per-profile body is abstracted as a
fallible state transformer. -/
def run (proc : ProfileConfig → DbState → Except String DbState) :
    DbState → List ProfileConfig → RunResult
  | s, [] => { state := s, profilesChecked := 0, errors := 0, attempted := [] }
  | s, p :: ps =>
    match proc p s with
    | Except.ok s1 =>
      let r := run proc s1 ps
      { state := r.state
        profilesChecked := r.profilesChecked + 1
        errors := r.errors
        attempted := p.username :: r.attempted }
    | Except.error _ =>
      let r := run proc s ps
      { state := r.state
        profilesChecked := r.profilesChecked
        errors := r.errors + 1
        attempted := p.username :: r.attempted }

/-- Two texts that differ only in whitespace-run content and letter casing:
matching non-whitespace characters agree up to case, and matching whitespace
runs are both nonempty but otherwise arbitrary. -/
inductive WsCase : List Char → List Char → Prop
  | nil : WsCase [] []
  | ch {c d : Char} {t1 t2 : List Char} :
      isWs c = false → isWs d = false → Char.toLower c = Char.toLower d →
      WsCase t1 t2 → WsCase (c :: t1) (d :: t2)
  | run {u v : List Char} {t1 t2 : List Char} :
      u ≠ [] → v ≠ [] → (∀ c ∈ u, isWs c = true) → (∀ c ∈ v, isWs c = true) →
      WsCase t1 t2 → WsCase (u ++ t1) (v ++ t2)

/-- Number of bindings for a key (a JS object has at most one). -/
def countKey {β : Type} (k : String) (l : List (String × β)) : Nat :=
  (l.filter (fun p => p.1 = k)).length

/-- Well-formedness of an embedded JS object: keys are pairwise distinct. -/
def KeysNodup {β : Type} (l : List (String × β)) : Prop :=
  l.Pairwise (fun p q => p.1 ≠ q.1)

/-! ### Concrete fixtures -/
/-- A freshly initialized datastore (the default document shape). -/
def emptyDb : DbState :=
  { profiles := [], processedTweets := [],
    stats := { totalTweetsProcessed := 0, totalSlackMessagesSent := 0,
               duplicateTweetsSkipped := 0, lastRun := none } }

/-- The profile of the spec scenario: no keyword filter, retweets and
replies excluded. -/
def acmeProfile : ProfileConfig :=
  { username := "acme", displayName := "Acme", enabled := true,
    includeRetweets := false, includeReplies := false, keywords := [] }

/-- First scenario post: fresh text. -/
def c1post1 : Tweet :=
  { tweetId := 1, text := some "Big launch today", full_text := none,
    created_at := "2024-01-01", retweeted := false, isReply := false }

/-- Second scenario post: same words, different whitespace, different id. -/
def c1post2 : Tweet :=
  { tweetId := 2, text := some "big   launch   today", full_text := none,
    created_at := "2024-01-01", retweeted := false, isReply := false }

/-- History entry fixture for the C2 state. -/
def c2rec : TweetRecord :=
  { id := 1, text := some "hello", created_at := "2024-01-01",
    processed_at := 50, sent_to_slack := true, is_duplicate := false }

/-- A stored profile that has a one-entry history. -/
def c2profileRec : ProfileRecord :=
  { lastTweetId := some 1, lastUpdated := some 50, tweetCount := 1,
    history := some [c2rec] }

/-- Datastore holding the C2 profile. -/
def c2state : DbState :=
  { profiles := [("acme", c2profileRec)], processedTweets := [],
    stats := { totalTweetsProcessed := 1, totalSlackMessagesSent := 1,
               duplicateTweetsSkipped := 0, lastRun := some 50 } }

/-- A text-less post from one profile. -/
def c10postA : Tweet :=
  { tweetId := 3, text := none, full_text := none,
    created_at := "2024-01-02", retweeted := false, isReply := false }

/-- A later text-less post, different id, different author. -/
def c10postB : Tweet :=
  { tweetId := 4, text := none, full_text := none,
    created_at := "2024-01-03", retweeted := false, isReply := false }

/-- The history list a username currently has in the store
(the source reads the history property of the profile record and falls
back to the empty list). -/
def histOf (s : DbState) (u : String) : List TweetRecord :=
  ((aget u s.profiles).bind (fun r => r.history)).getD []

/-- First post producing the C3 fingerprint. -/
def c3post1 : Tweet :=
  { tweetId := 11, text := some "Same text", full_text := none,
    created_at := "2024-02-01", retweeted := false, isReply := false }

/-- Later post with identical text and a different id. -/
def c3post2 : Tweet :=
  { tweetId := 12, text := some "Same text", full_text := none,
    created_at := "2024-02-02", retweeted := false, isReply := false }

/-- Store after marking both C3 posts in order. -/
def c3state2 : DbState :=
  markContentAsProcessed (markContentAsProcessed emptyDb c3post1 "u1" 10) c3post2 "u2" 20

/-- A stored profile with cursor 5 for the C7 witness. -/
def c7state : DbState :=
  { profiles := [("acme",
      { lastTweetId := some 5, lastUpdated := some 1, tweetCount := 3, history := some [] })],
    processedTweets := [],
    stats := { totalTweetsProcessed := 0, totalSlackMessagesSent := 0,
               duplicateTweetsSkipped := 0, lastRun := none } }

/-- A fetched post above the stored cursor. -/
def c7post : Tweet :=
  { tweetId := 7, text := some "Ship it", full_text := none,
    created_at := "2024-03-01", retweeted := false, isReply := false }

/-- Witness tweet with capitals and a two-space run. -/
def c4tweetA : Tweet :=
  { tweetId := 21, text := some "A  b", full_text := none,
    created_at := "2024-04-01", retweeted := false, isReply := false }

/-- Witness tweet with the same words, single space, other casing. -/
def c4tweetB : Tweet :=
  { tweetId := 22, text := some "a b", full_text := none,
    created_at := "2024-04-02", retweeted := false, isReply := false }

/-- Comparator order of the cleanup sort: the left entry was processed at
least as recently as the right one. -/
def ProcGE (a b : String × ProcessedEntry) : Prop :=
  b.2.processedAt ≤ a.2.processedAt

/-- A 1200-entry fingerprint index, `processedAt` descending 1199..0. -/
def c5entries : List (String × ProcessedEntry) :=
  (List.range 1200).map (fun i =>
    (Nat.repr (1199 - i),
     { tweetId := 1199 - i, username := "u", processedAt := 1199 - i, content := "" }))

/-- Store holding the 1200-entry index. -/
def c5state : DbState :=
  { profiles := [], processedTweets := c5entries,
    stats := { totalTweetsProcessed := 0, totalSlackMessagesSent := 0,
               duplicateTweetsSkipped := 0, lastRun := none } }

/-- The most recent entry, which cleanup retains. -/
def c5kept : String × ProcessedEntry :=
  ("1199", { tweetId := 1199, username := "u", processedAt := 1199, content := "" })

/-- The 1001st-most-recent entry, which cleanup drops. -/
def c5dropped : String × ProcessedEntry :=
  ("199", { tweetId := 199, username := "u", processedAt := 199, content := "" })

/-- The 1000th-most-recent entry of the original set. -/
def c5boundary : String × ProcessedEntry :=
  ("200", { tweetId := 200, username := "u", processedAt := 200, content := "" })

/-! ### Association-list lemmas -/
theorem aget_aset_self {β : Type} (k : String) (v : β) (l : List (String × β)) :
    aget k (aset k v l) = some v := by
  induction l with
  | nil => simp [aget, aset]
  | cons p rest ih =>
    by_cases h : p.1 = k
    · simp [aset, aget, h]
    · simp [aset, aget, h, ih]

theorem aget_aupdate_self {β : Type} (k : String) (f : β → β) (l : List (String × β)) :
    aget k (aupdate k f l) = (aget k l).map f := by
  induction l with
  | nil => simp [aget, aupdate]
  | cons p rest ih =>
    by_cases h : p.1 = k
    · simp [aupdate, aget, h]
    · simp [aupdate, aget, h, ih]

theorem aget_aupdate_ne {β : Type} (k k' : String) (f : β → β) (l : List (String × β))
    (h : k' ≠ k) : aget k' (aupdate k f l) = aget k' l := by
  induction l with
  | nil => simp [aupdate]
  | cons p rest ih =>
    by_cases hp : p.1 = k
    · have : ¬ (k = k') := fun e => h e.symm
      simp [aupdate, aget, hp, this]
    · by_cases hq : p.1 = k'
      · simp [aupdate, aget, hp, hq, h]
      · simp [aupdate, aget, hp, hq, ih]

theorem countKey_eq_zero_of_aget_none {β : Type} (k : String) (l : List (String × β))
    (h : aget k l = none) : countKey k l = 0 := by
  induction l with
  | nil => simp [countKey]
  | cons p rest ih =>
    by_cases hp : p.1 = k
    · simp [aget, hp] at h
    · simp [aget, hp] at h
      simpa [countKey, List.filter, hp] using ih h

theorem countKey_eq_one_of_aget_some {β : Type} (k : String) (l : List (String × β))
    (hnd : KeysNodup l) (v : β) (h : aget k l = some v) : countKey k l = 1 := by
  induction l with
  | nil => simp [aget] at h
  | cons p rest ih =>
    rcases List.pairwise_cons.mp hnd with ⟨hhd, htl⟩
    by_cases hp : p.1 = k
    · have hrest : aget k rest = none := by
        cases hr : aget k rest with
        | none => rfl
        | some w =>
          exfalso
          have : ∃ q ∈ rest, q.1 = k := by
            clear ih h hnd hhd
            induction rest with
            | nil => simp [aget] at hr
            | cons q rs ihr =>
              by_cases hq : q.1 = k
              · exact ⟨q, List.mem_cons_self q rs, hq⟩
              · simp [aget, hq] at hr
                rcases ihr (List.pairwise_cons.mp htl).2 hr with ⟨x, hx, hxk⟩
                exact ⟨x, List.mem_cons_of_mem q hx, hxk⟩
          rcases this with ⟨q, hq, hqk⟩
          exact hhd q hq (hp.trans hqk.symm)
      have : countKey k rest = 0 := countKey_eq_zero_of_aget_none k rest hrest
      simp [countKey, List.filter, hp] at this ⊢
      exact this
    · simp [aget, hp] at h
      simpa [countKey, List.filter, hp] using ih htl h

theorem countKey_aset {β : Type} (k : String) (v : β) (l : List (String × β)) :
    countKey k (aset k v l) =
      (match aget k l with | none => countKey k l + 1 | some _ => countKey k l) := by
  induction l with
  | nil => simp [aset, aget, countKey]
  | cons p rest ih =>
    by_cases hp : p.1 = k
    · simp [aset, aget, hp, countKey, List.filter]
    · simp only [aset, aget, hp, if_neg]
      cases hr : aget k rest with
      | none => simpa [countKey, List.filter, hp, hr] using (by simpa [hr] using ih)
      | some w => simpa [countKey, List.filter, hp, hr] using (by simpa [hr] using ih)

theorem mem_aset {β : Type} (k : String) (v : β) (l : List (String × β)) (q : String × β)
    (hq : q ∈ aset k v l) : q = (k, v) ∨ q ∈ l := by
  induction l with
  | nil =>
    simp [aset] at hq
    simp [hq]
  | cons p rest ih =>
    obtain ⟨pk, pv⟩ := p
    by_cases hp : pk = k
    · simp only [aset, hp, if_pos] at hq
      rcases List.mem_cons.mp hq with h1 | h1
      · left; exact h1
      · right; exact List.mem_cons_of_mem _ h1
    · simp only [aset, hp, if_neg, not_false_iff] at hq
      rcases List.mem_cons.mp hq with h1 | h1
      · right; rw [h1]; exact List.mem_cons_self _ _
      · rcases ih h1 with h2 | h2
        · left; exact h2
        · right; exact List.mem_cons_of_mem _ h2

theorem keysNodup_aset {β : Type} (k : String) (v : β) (l : List (String × β))
    (h : KeysNodup l) : KeysNodup (aset k v l) := by
  induction l with
  | nil =>
    show List.Pairwise _ _
    simp [aset]
  | cons p rest ih =>
    obtain ⟨pk, pv⟩ := p
    rcases List.pairwise_cons.mp h with ⟨hhd, htl⟩
    by_cases hp : pk = k
    · have heq : aset k v ((pk, pv) :: rest) = (k, v) :: rest := by simp [aset, hp]
      show List.Pairwise _ _
      rw [heq]
      refine List.pairwise_cons.mpr ⟨?_, htl⟩
      intro q hq
      have := hhd q hq
      exact hp ▸ this
    · have heq : aset k v ((pk, pv) :: rest) = (pk, pv) :: aset k v rest := by simp [aset, hp]
      show List.Pairwise _ _
      rw [heq]
      refine List.pairwise_cons.mpr ⟨?_, ih htl⟩
      intro q hq
      rcases mem_aset k v rest q hq with h1 | h1
      · rw [h1]; exact hp
      · exact hhd q h1

/-- Claim C1: the spec requires the per-profile cycle to consult the
fingerprint index before delivery, so that of two fetched posts with
distinct identifiers and identical normalized text at most one reaches the
delivery collaborator. The engine of scraper.js never calls
`isDuplicateContent` or `markContentAsProcessed`: on the scenario batch both
posts have equal fingerprints and distinct identifiers, yet both are passed
to `sendTweet`. -/
theorem c1_engine_relays_both_equal_fingerprint_posts :
    generateContentHash c1post1 = generateContentHash c1post2
    ∧ c1post1.tweetId ≠ c1post2.tweetId
    ∧ (processProfile (fun _ => DeliveryOutcome.ok true) emptyDb acmeProfile
        [c1post1, c1post2] 5).relayed = [c1post1, c1post2]
    ∧ isDuplicateContent
        (processProfile (fun _ => DeliveryOutcome.ok true) emptyDb acmeProfile
          [c1post1, c1post2] 5).state c1post2 = false := by
  refine ⟨by decide, by decide, by decide, by decide⟩

/-- Claim C2: the claim says `setLastTweetId` changes only `lastTweetId`,
`tweetCount` and `lastUpdated` and leaves every other field — in particular
`history` — unchanged. The source instead replaces the whole profile object
with a fresh three-field one: starting from a profile whose history holds
one record, after the call the history property is gone. -/
theorem c2_setLastTweetId_drops_history :
    (aget "acme" c2state.profiles).bind (fun r => r.history) = some [c2rec]
    ∧ aget "acme" (setLastTweetId c2state "acme" 2 60).profiles =
        some { lastTweetId := some 2, lastUpdated := some 60, tweetCount := 2, history := none }
    ∧ (aget "acme" (setLastTweetId c2state "acme" 2 60).profiles).bind (fun r => r.history)
        = none := by
  refine ⟨by decide, by decide, by decide⟩

/-- Claim C9: for an unknown username `getProfileStats` returns the fixed
default object and issues no write. -/
theorem c9_getProfileStats_default (s : DbState) (u : String)
    (h : aget u s.profiles = none) :
    getProfileStats s u =
      { lastTweetId := none, lastUpdated := none, tweetCount := 0, history := some [] }
    ∧ (getProfileStatsCall s u).2 = s := by
  constructor
  · rw [getProfileStats, h]
    rfl
  · rfl

/-- Witness for C9 at a concrete store with no record for the username. -/
theorem c9_witness :
    getProfileStats c2state "ghost" =
      { lastTweetId := none, lastUpdated := none, tweetCount := 0, history := some [] }
    ∧ (getProfileStatsCall c2state "ghost").2 = c2state :=
  c9_getProfileStats_default c2state "ghost" (by decide)

/-- Claim C10: a post with neither a `text` nor a `full_text` field hashes
like the empty string, and once one such post is marked processed every
later text-less post is classified duplicate. -/
theorem c10_textless_posts_share_fingerprint (s : DbState) (t1 t2 : Tweet) (u : String)
    (now : Nat) (h1 : t1.text = none) (h2 : t1.full_text = none)
    (h3 : t2.text = none) (h4 : t2.full_text = none) :
    generateContentHash t1 = normString ""
    ∧ generateContentHash t2 = normString ""
    ∧ isDuplicateContent (markContentAsProcessed s t1 u now) t2 = true := by
  have e1 : effText t1 = "" := by simp [effText, jsOr, h1, h2]
  have e2 : effText t2 = "" := by simp [effText, jsOr, h3, h4]
  have g1 : generateContentHash t1 = normString "" := by rw [generateContentHash, e1]
  have g2 : generateContentHash t2 = normString "" := by rw [generateContentHash, e2]
  refine ⟨g1, g2, ?_⟩
  rw [isDuplicateContent, markContentAsProcessed, g2, ← g1]
  simp [aget_aset_self]

/-- Witness for C10 on two concrete text-less posts. -/
theorem c10_witness :
    generateContentHash c10postA = normString ""
    ∧ generateContentHash c10postB = normString ""
    ∧ isDuplicateContent (markContentAsProcessed emptyDb c10postA "acme" 7) c10postB = true :=
  c10_textless_posts_share_fingerprint emptyDb c10postA c10postB "acme" 7 rfl rfl rfl rfl

/-- Claim C6: one `recordTweet` call leaves the touched history at no more
than 100 entries, and when the profile record exists the new history is the
new record prepended and the list truncated to the first 100. -/
theorem c6_recordTweet_history_bound (s : DbState) (u : String) (t : Tweet)
    (sent dup : Bool) (now : Nat) :
    (histOf (recordTweet s u t sent dup now) u).length ≤ 100
    ∧ ((aget u s.profiles).isSome →
        histOf (recordTweet s u t sent dup now) u
          = (tweetRecordOf t sent dup now :: histOf s u).take 100) := by
  cases hg : aget u s.profiles with
  | none =>
    constructor
    · simp [histOf, recordTweet, aget_aupdate_self, hg]
    · intro hs
      simp at hs
  | some r =>
    have hh : histOf (recordTweet s u t sent dup now) u =
        (let h := tweetRecordOf t sent dup now :: (r.history.getD [])
         if h.length > 100 then h.take 100 else h) := by
      simp [histOf, recordTweet, aget_aupdate_self, hg]
    have hbase : histOf s u = r.history.getD [] := by simp [histOf, hg]
    constructor
    · rw [hh]
      by_cases hl : (tweetRecordOf t sent dup now :: (r.history.getD [])).length > 100
      · simp only [hl, if_pos]
        simp [List.length_take]
      · simp only [hl, if_neg, not_false_iff]
        omega
    · intro _
      rw [hh, hbase]
      by_cases hl : (tweetRecordOf t sent dup now :: (r.history.getD [])).length > 100
      · simp only [hl, if_pos]
      · simp only [hl, if_neg, not_false_iff]
        exact (List.take_of_length_le (by omega)).symm

/-- Witness for C6: one delivery recorded against the concrete C2 store. -/
theorem c6_witness :
    histOf (recordTweet c2state "acme" c1post1 true false 70) "acme"
      = (tweetRecordOf c1post1 true false 70 :: histOf c2state "acme").take 100 :=
  (c6_recordTweet_history_bound c2state "acme" c1post1 true false 70).2 (by decide)

/-- Counterexample to claim C3: `markContentAsProcessed` is not an
insert-if-absent. Marking two posts of identical text leaves one entry, but
that entry records the second post, not the first one that produced the
fingerprint. -/
theorem c3_counterexample_mark_overwrites :
    generateContentHash c3post1 = generateContentHash c3post2
    ∧ c3state2.processedTweets.length = 1
    ∧ aget (generateContentHash c3post1) c3state2.processedTweets =
        some { tweetId := 12, username := "u2", processedAt := 20, content := "Same text" }
    ∧ aget (generateContentHash c3post1) c3state2.processedTweets ≠
        some { tweetId := 11, username := "u1", processedAt := 10, content := "Same text" } := by
  refine ⟨by decide, by decide, by decide, by decide⟩

/-- Claim C3 as amended: `markContentAsProcessed` unconditionally writes the
entry for the fingerprint — an insert when absent, an overwrite when
present. Calling it twice on posts with identical normalized content leaves
exactly one entry under that fingerprint, and that entry records the most
recent post. -/
theorem c3_amended_mark_last_writer_wins (s : DbState) (t1 t2 : Tweet) (u1 u2 : String)
    (n1 n2 : Nat) (hnd : KeysNodup s.processedTweets)
    (hh : generateContentHash t1 = generateContentHash t2) :
    aget (generateContentHash t1)
        ((markContentAsProcessed (markContentAsProcessed s t1 u1 n1) t2 u2 n2).processedTweets)
      = some { tweetId := t2.tweetId, username := u2, processedAt := n2, content := effText t2 }
    ∧ countKey (generateContentHash t1)
        ((markContentAsProcessed (markContentAsProcessed s t1 u1 n1) t2 u2 n2).processedTweets)
      = 1 := by
  simp only [markContentAsProcessed, hh]
  constructor
  · exact aget_aset_self _ _ _
  · have h1 : aget (generateContentHash t2)
        (aset (generateContentHash t2)
          { tweetId := t1.tweetId, username := u1, processedAt := n1, content := effText t1 }
          s.processedTweets) =
        some { tweetId := t1.tweetId, username := u1, processedAt := n1, content := effText t1 } :=
      aget_aset_self _ _ _
    rw [countKey_aset, h1, countKey_aset]
    cases hr : aget (generateContentHash t2) s.processedTweets with
    | none => simp [countKey_eq_zero_of_aget_none _ _ hr]
    | some v => simp [countKey_eq_one_of_aget_some _ _ hnd v hr]

/-- Witness for the amended C3 on the two concrete posts over the fresh
store. -/
theorem c3_amended_witness :
    aget (generateContentHash c3post1) c3state2.processedTweets =
      some { tweetId := c3post2.tweetId, username := "u2", processedAt := 20,
             content := effText c3post2 }
    ∧ countKey (generateContentHash c3post1) c3state2.processedTweets = 1 :=
  c3_amended_mark_last_writer_wins emptyDb c3post1 c3post2 "u1" "u2" 10 20
    (List.Pairwise.nil) (by decide)

/-- Claim C8: the loop body of `run` is wrapped per profile, so every
profile is iterated in order whatever the earlier outcomes, and every
iteration ends in exactly one of the two counters. -/
theorem c8_run_failure_isolation (proc : ProfileConfig → DbState → Except String DbState)
    (s : DbState) (ps : List ProfileConfig) :
    (run proc s ps).attempted = ps.map (fun p => p.username)
    ∧ (run proc s ps).profilesChecked + (run proc s ps).errors = ps.length := by
  induction ps generalizing s with
  | nil => simp [run]
  | cons p rest ih =>
    cases hp : proc p s with
    | ok s1 =>
      obtain ⟨ha, hc⟩ := ih s1
      constructor
      · simp [run, hp, ha]
      · simp only [run, hp, List.length_cons]
        omega
    | error e =>
      obtain ⟨ha, hc⟩ := ih s
      constructor
      · simp [run, hp, ha]
      · simp only [run, hp, List.length_cons]
        omega

/-- `recordTweet` never touches the cursor of any profile. -/
theorem getLastTweetId_recordTweet (s : DbState) (u : String) (t : Tweet)
    (sent dup : Bool) (now : Nat) (v : String) :
    getLastTweetId (recordTweet s u t sent dup now) v = getLastTweetId s v := by
  rcases eq_or_ne v u with h | h
  · subst h
    simp only [getLastTweetId, recordTweet, aget_aupdate_self]
    cases aget v s.profiles with
    | none => rfl
    | some r => rfl
  · simp only [getLastTweetId, recordTweet, aget_aupdate_ne _ _ _ _ h]

/-- `setLastTweetId` stores exactly the given identifier as the cursor. -/
theorem getLastTweetId_setLastTweetId_self (s : DbState) (u : String) (i now : Nat) :
    getLastTweetId (setLastTweetId s u i now) u = some i := by
  simp [getLastTweetId, setLastTweetId, aget_aset_self]

/-- Over the delivery loop, a lower bound on the cursor is preserved as long
as every post in the batch lies strictly above it. -/
theorem processTweets_cursor_ge (deliver : Tweet → DeliveryOutcome) (u : String) (now c : Nat) :
    ∀ (ts : List Tweet) (s : DbState),
    (∀ t ∈ ts, c < t.tweetId) →
    (∀ d, getLastTweetId s u = some d → c ≤ d) →
    ∀ d, getLastTweetId (processTweets deliver u now s ts).state u = some d → c ≤ d := by
  intro ts
  induction ts with
  | nil =>
    intro s hts hinv d hd
    exact hinv d (by simpa [processTweets] using hd)
  | cons t rest ih =>
    intro s hts hinv d hd
    cases hdel : deliver t with
    | ok sent =>
      refine ih (setLastTweetId (recordTweet s u t sent false now) u t.tweetId now)
        (fun x hx => hts x (List.mem_cons_of_mem t hx)) ?_ d ?_
      · intro e he
        rw [getLastTweetId_setLastTweetId_self] at he
        have : t.tweetId = e := Option.some.inj he
        have hlt := hts t (List.mem_cons_self t rest)
        omega
      · simpa [processTweets, hdel] using hd
    | threw =>
      refine ih (recordTweet s u t false false now)
        (fun x hx => hts x (List.mem_cons_of_mem t hx)) ?_ d ?_
      · intro e he
        rw [getLastTweetId_recordTweet] at he
        exact hinv e he
      · simpa [processTweets, hdel] using hd

/-- Any post surviving the since-id filter lies strictly above the cursor. -/
theorem fetchFilter_mem (c : Nat) (l : List Tweet) (t : Tweet)
    (h : t ∈ fetchFilter (some c) l) : c < t.tweetId := by
  rw [fetchFilter] at h
  by_cases hl : 0 < l.length
  · rw [if_pos hl] at h
    have := (List.mem_filter.mp h).2
    exact of_decide_eq_true this
  · have hnil : l = [] := by
      cases l with
      | nil => rfl
      | cons a as => simp at hl
    subst hnil
    simp at h

/-- Claim C7: when a cursor is stored for the profile, any cursor value
present after the per-profile cycle is at least the old one — the fetched
batch is since-id filtered strictly above the stored cursor and the cursor
is only ever set to identifiers of posts from that batch. -/
theorem c7_cursor_monotone (deliver : Tweet → DeliveryOutcome) (s : DbState)
    (prof : ProfileConfig) (upstream : List Tweet) (now c : Nat)
    (hc : getLastTweetId s prof.username = some c) :
    ∀ d, getLastTweetId (processProfile deliver s prof upstream now).state prof.username
        = some d → c ≤ d := by
  intro d hd
  simp only [processProfile] at hd
  by_cases h0 : (fetchFilter (getLastTweetId s prof.username) upstream).length = 0
  · rw [if_pos h0] at hd
    rw [hc] at hd
    exact le_of_eq (Option.some.inj hd)
  · rw [if_neg h0] at hd
    by_cases h1 : ((fetchFilter (getLastTweetId s prof.username) upstream).filter
        (fun t => shouldIncludeTweet t prof)).length = 0
    · rw [if_pos h1] at hd
      rw [hc] at hd
      exact le_of_eq (Option.some.inj hd)
    · rw [if_neg h1] at hd
      refine processTweets_cursor_ge deliver prof.username now c _ s ?_ ?_ d hd
      · intro t ht
        have htw := (List.mem_filter.mp ht).1
        rw [hc] at htw
        exact fetchFilter_mem c upstream t htw
      · intro e he
        rw [hc] at he
        exact le_of_eq (Option.some.inj he)

/-- Witness for C7: one delivered post advances the cursor from 5 to 7. -/
theorem c7_witness :
    getLastTweetId (processProfile (fun _ => DeliveryOutcome.ok true) c7state acmeProfile
        [c7post] 9).state acmeProfile.username = some 7
    ∧ (5 : Nat) ≤ 7 :=
  ⟨by decide,
   c7_cursor_monotone (fun _ => DeliveryOutcome.ok true) c7state acmeProfile [c7post] 9 5
     (by decide) 7 (by decide)⟩

/-! ### Normalization lemmas for C4 -/
theorem rtrim_cons_not_ws (c : Char) (l : List Char) (h : isWs c = false) :
    rtrim (c :: l) = c :: rtrim l := by
  show (match rtrim l with
        | [] => if isWs c then [] else [c]
        | r => c :: r) = c :: rtrim l
  cases hr : rtrim l with
  | nil => simp [h]
  | cons a as => rfl

theorem rtrim_cons_ws (c : Char) (l : List Char) (h : isWs c = true) :
    rtrim (c :: l) = if rtrim l = [] then [] else c :: rtrim l := by
  show (match rtrim l with
        | [] => if isWs c then [] else [c]
        | r => c :: r) = _
  cases hr : rtrim l with
  | nil => simp [h]
  | cons a as => simp

theorem collapseAux_true_ws_append (u t : List Char) (hu : ∀ c ∈ u, isWs c = true) :
    collapseAux true (u ++ t) = collapseAux true t := by
  induction u with
  | nil => rfl
  | cons c cs ih =>
    have hc : isWs c = true := hu c (List.mem_cons_self c cs)
    have ihr := ih (fun x hx => hu x (List.mem_cons_of_mem c hx))
    show collapseAux true (c :: (cs ++ t)) = collapseAux true t
    simp [collapseAux, hc, ihr]

theorem ltrim_collapseAux_true (t : List Char) :
    ltrim (collapseAux true t) = collapseAux true t := by
  induction t with
  | nil => rfl
  | cons c cs ih =>
    by_cases hc : isWs c = true
    · simp [collapseAux, hc, ih]
    · have hc' : isWs c = false := by simpa using hc
      simp [collapseAux, hc', ltrim]

theorem ltrim_collapseAux_false (t : List Char) :
    ltrim (collapseAux false t) = collapseAux true t := by
  induction t with
  | nil => rfl
  | cons c cs ih =>
    by_cases hc : isWs c = true
    · have hsp : isWs ' ' = true := by decide
      simp [collapseAux, hc, ltrim, hsp, ltrim_collapseAux_true cs]
    · have hc' : isWs c = false := by simpa using hc
      simp [collapseAux, hc', ltrim]

theorem wsCase_norm_aux {t1 t2 : List Char} (h : WsCase t1 t2) :
    lowerChars (rtrim (collapseAux true t1)) = lowerChars (rtrim (collapseAux true t2))
    ∧ lowerChars (rtrim (collapseAux false t1)) = lowerChars (rtrim (collapseAux false t2)) := by
  induction h with
  | nil => exact ⟨rfl, rfl⟩
  | @ch c d s1 s2 hc hd hl hw ih =>
    obtain ⟨ihT, ihF⟩ := ih
    have e1t : collapseAux true (c :: s1) = c :: collapseAux false s1 := by
      simp [collapseAux, hc]
    have e2t : collapseAux true (d :: s2) = d :: collapseAux false s2 := by
      simp [collapseAux, hd]
    have e1f : collapseAux false (c :: s1) = c :: collapseAux false s1 := by
      simp [collapseAux, hc]
    have e2f : collapseAux false (d :: s2) = d :: collapseAux false s2 := by
      simp [collapseAux, hd]
    have key : lowerChars (rtrim (c :: collapseAux false s1))
        = lowerChars (rtrim (d :: collapseAux false s2)) := by
      rw [rtrim_cons_not_ws c _ hc, rtrim_cons_not_ws d _ hd]
      simp only [lowerChars, List.map_cons]
      rw [hl]
      simp only [lowerChars] at ihF
      rw [ihF]
    exact ⟨by rw [e1t, e2t]; exact key, by rw [e1f, e2f]; exact key⟩
  | @run u v s1 s2 hu hv hwu hwv hw ih =>
    obtain ⟨ihT, ihF⟩ := ih
    have eskip1 : collapseAux true (u ++ s1) = collapseAux true s1 :=
      collapseAux_true_ws_append u s1 hwu
    have eskip2 : collapseAux true (v ++ s2) = collapseAux true s2 :=
      collapseAux_true_ws_append v s2 hwv
    refine ⟨by rw [eskip1, eskip2]; exact ihT, ?_⟩
    cases u with
    | nil => exact absurd rfl hu
    | cons c u' =>
      cases v with
      | nil => exact absurd rfl hv
      | cons e v' =>
        have hc : isWs c = true := hwu c (List.mem_cons_self c u')
        have he : isWs e = true := hwv e (List.mem_cons_self e v')
        have e1 : collapseAux false ((c :: u') ++ s1) = ' ' :: collapseAux true s1 := by
          show collapseAux false (c :: (u' ++ s1)) = _
          have : collapseAux true (u' ++ s1) = collapseAux true s1 :=
            collapseAux_true_ws_append u' s1 (fun x hx => hwu x (List.mem_cons_of_mem c hx))
          simp [collapseAux, hc, this]
        have e2 : collapseAux false ((e :: v') ++ s2) = ' ' :: collapseAux true s2 := by
          show collapseAux false (e :: (v' ++ s2)) = _
          have : collapseAux true (v' ++ s2) = collapseAux true s2 :=
            collapseAux_true_ws_append v' s2 (fun x hx => hwv x (List.mem_cons_of_mem e hx))
          simp [collapseAux, he, this]
        rw [e1, e2]
        have hsp : isWs ' ' = true := by decide
        rw [rtrim_cons_ws ' ' _ hsp, rtrim_cons_ws ' ' _ hsp]
        by_cases hA : rtrim (collapseAux true s1) = []
        · have hB : rtrim (collapseAux true s2) = [] := by
            have := ihT
            rw [hA] at this
            have : List.map Char.toLower (rtrim (collapseAux true s2)) = [] := by
              simpa [lowerChars] using this.symm
            exact List.map_eq_nil_iff.mp this
          rw [if_pos hA, if_pos hB]
        · have hB : rtrim (collapseAux true s2) ≠ [] := by
            intro hB
            apply hA
            have := ihT
            rw [hB] at this
            have : List.map Char.toLower (rtrim (collapseAux true s1)) = [] := by
              simpa [lowerChars] using this
            exact List.map_eq_nil_iff.mp this
          rw [if_neg hA, if_neg hB]
          simp only [lowerChars, List.map_cons]
          simp only [lowerChars] at ihT
          rw [ihT]

/-- Whitespace-run and casing changes do not affect the normalized text. -/
theorem wsCase_normChars {t1 t2 : List Char} (h : WsCase t1 t2) :
    normChars t1 = normChars t2 := by
  rw [normChars, normChars, trimChars, trimChars, collapseWs, collapseWs,
    ltrim_collapseAux_false, ltrim_collapseAux_false]
  exact (wsCase_norm_aux h).1

/-- Claim C4: two post texts that differ only by whitespace-run or casing
differences produce the same content fingerprint, because the hasher
collapses whitespace runs, trims, and case-folds before digesting. -/
theorem c4_hash_stable_under_ws_and_case (tw1 tw2 : Tweet)
    (h : WsCase (effText tw1).data (effText tw2).data) :
    generateContentHash tw1 = generateContentHash tw2 := by
  rw [generateContentHash, generateContentHash, normString, normString]
  exact congrArg String.mk (wsCase_normChars h)

/-- Witness for C4 on the two concrete texts. -/
theorem c4_witness : generateContentHash c4tweetA = generateContentHash c4tweetB := by
  refine c4_hash_stable_under_ws_and_case c4tweetA c4tweetB ?_
  have e1 : (effText c4tweetA).data = ['A', ' ', ' ', 'b'] := by decide
  have e2 : (effText c4tweetB).data = ['a', ' ', 'b'] := by decide
  rw [e1, e2]
  have h1 : WsCase ['b'] ['b'] :=
    WsCase.ch (by decide) (by decide) rfl WsCase.nil
  have h2 : WsCase ([' ', ' '] ++ ['b']) ([' '] ++ ['b']) :=
    WsCase.run (by decide) (by decide) (by decide) (by decide) h1
  exact WsCase.ch (by decide) (by decide) (by decide) h2

/-! ### Sorting lemmas for C5 -/

theorem insertByProcessedDesc_perm (x : String × ProcessedEntry)
    (l : List (String × ProcessedEntry)) :
    (insertByProcessedDesc x l).Perm (x :: l) := by
  induction l with
  | nil => exact List.Perm.refl _
  | cons y ys ih =>
    by_cases h : y.2.processedAt < x.2.processedAt
    · simp only [insertByProcessedDesc, h, if_pos]
      exact List.Perm.refl _
    · simp only [insertByProcessedDesc, h, if_neg, not_false_iff]
      exact (List.Perm.cons y ih).trans (List.Perm.swap x y ys)

theorem sortByProcessedDesc_perm (l : List (String × ProcessedEntry)) :
    (sortByProcessedDesc l).Perm l := by
  induction l with
  | nil => exact List.Perm.refl _
  | cons x xs ih =>
    show (insertByProcessedDesc x (sortByProcessedDesc xs)).Perm (x :: xs)
    exact (insertByProcessedDesc_perm x (sortByProcessedDesc xs)).trans (List.Perm.cons x ih)

theorem pairwise_insertByProcessedDesc (x : String × ProcessedEntry)
    (l : List (String × ProcessedEntry)) (h : List.Pairwise ProcGE l) :
    List.Pairwise ProcGE (insertByProcessedDesc x l) := by
  induction l with
  | nil => simp [insertByProcessedDesc, ProcGE]
  | cons y ys ih =>
    rcases List.pairwise_cons.mp h with ⟨hy, hys⟩
    by_cases hlt : y.2.processedAt < x.2.processedAt
    · simp only [insertByProcessedDesc, hlt, if_pos]
      refine List.pairwise_cons.mpr ⟨?_, h⟩
      intro b hb
      rcases List.mem_cons.mp hb with h1 | h1
      · rw [h1]; exact le_of_lt hlt
      · exact le_trans (hy b h1) (le_of_lt hlt)
    · simp only [insertByProcessedDesc, hlt, if_neg, not_false_iff]
      refine List.pairwise_cons.mpr ⟨?_, ih hys⟩
      intro b hb
      have hb' : b ∈ x :: ys := (insertByProcessedDesc_perm x ys).mem_iff.mp hb
      rcases List.mem_cons.mp hb' with h1 | h1
      · rw [h1]; exact le_of_not_lt hlt
      · exact hy b h1

theorem pairwise_sortByProcessedDesc (l : List (String × ProcessedEntry)) :
    List.Pairwise ProcGE (sortByProcessedDesc l) := by
  induction l with
  | nil => exact List.Pairwise.nil
  | cons x xs ih => exact pairwise_insertByProcessedDesc x _ ih

/-- Claim C5: after `cleanup` the fingerprint index holds at most 1000
entries, every retained entry comes from the original index, every retained
entry was processed at least as recently as every dropped one, and on a
1200-entry index exactly 1000 remain, all at or above the 1000th-most-recent
`processedAt` of the original set. -/
theorem c5_cleanup_keeps_most_recent_1000 (s : DbState) (now : Nat) :
    (cleanup s now).processedTweets.length ≤ 1000
    ∧ (∀ x ∈ (cleanup s now).processedTweets, x ∈ s.processedTweets)
    ∧ (∀ x ∈ (cleanup s now).processedTweets, ∀ y ∈ s.processedTweets,
        y ∉ (cleanup s now).processedTweets → y.2.processedAt ≤ x.2.processedAt)
    ∧ (s.processedTweets.length = 1200 →
        (cleanup s now).processedTweets.length = 1000
        ∧ ∀ x ∈ (cleanup s now).processedTweets, ∀ q,
            (sortByProcessedDesc s.processedTweets)[999]? = some q →
            q.2.processedAt ≤ x.2.processedAt) := by
  by_cases hlen : s.processedTweets.length > 1000
  case neg =>
    have hres : (cleanup s now).processedTweets = s.processedTweets := by
      simp only [cleanup, hlen, if_neg, not_false_iff]
    refine ⟨?_, ?_, ?_, ?_⟩
    · rw [hres]; omega
    · intro x hx; rw [hres] at hx; exact hx
    · intro x _ y hy hyn
      rw [hres] at hyn
      exact absurd hy hyn
    · intro h1200; omega
  case pos =>
    have hres : (cleanup s now).processedTweets
        = (sortByProcessedDesc s.processedTweets).take 1000 := by
      simp only [cleanup, hlen, if_pos]
    have hperm := sortByProcessedDesc_perm s.processedTweets
    have hpair := pairwise_sortByProcessedDesc s.processedTweets
    have hslen : (sortByProcessedDesc s.processedTweets).length = s.processedTweets.length :=
      hperm.length_eq
    refine ⟨?_, ?_, ?_, ?_⟩
    · rw [hres]
      simp [List.length_take]
    · intro x hx
      rw [hres] at hx
      exact hperm.mem_iff.mp ((List.take_sublist 1000 _).subset hx)
    · intro x hx y hy hyn
      rw [hres] at hx hyn
      have hy2 : y ∈ (sortByProcessedDesc s.processedTweets).take 1000
          ++ (sortByProcessedDesc s.processedTweets).drop 1000 := by
        rw [List.take_append_drop]
        exact hperm.mem_iff.mpr hy
      have hydrop : y ∈ (sortByProcessedDesc s.processedTweets).drop 1000 := by
        rcases List.mem_append.mp hy2 with h1 | h1
        · exact absurd h1 hyn
        · exact h1
      have hpair2 : List.Pairwise ProcGE
          ((sortByProcessedDesc s.processedTweets).take 1000
            ++ (sortByProcessedDesc s.processedTweets).drop 1000) := by
        rw [List.take_append_drop]
        exact hpair
      exact (List.pairwise_append.mp hpair2).2.2 x hx y hydrop
    · intro h1200
      have hslen' : (sortByProcessedDesc s.processedTweets).length = 1200 := by omega
      constructor
      · rw [hres, List.length_take, hslen']
        decide
      · intro x hx q hq
        rw [hres] at hx
        obtain ⟨i, hi, hxeq⟩ := List.getElem_of_mem hx
        have hi1000 : i < 1000 := by
          have := hi
          rw [List.length_take, hslen'] at this
          omega
        have hi' : i < (sortByProcessedDesc s.processedTweets).length := by omega
        have hxs : x = (sortByProcessedDesc s.processedTweets)[i] := by
          rw [← hxeq, List.getElem_take]
        have h999 : (999 : Nat) < (sortByProcessedDesc s.processedTweets).length := by omega
        have hqv : q = (sortByProcessedDesc s.processedTweets)[999] := by
          rw [List.getElem?_eq_getElem h999] at hq
          exact (Option.some.inj hq).symm
        rcases Nat.lt_or_ge i 999 with hio | hio
        · have := List.pairwise_iff_getElem.mp hpair i 999 hi' h999 hio
          rw [hxs, hqv]
          exact this
        · have hieq : i = 999 := by omega
          subst hieq
          rw [hxs, hqv]

set_option maxRecDepth 40000 in
/-- Witness for C5 on the concrete 1200-entry index: exactly 1000 entries
remain, a dropped entry is no more recent than a kept one, and kept entries
sit at or above the 1000th-most-recent timestamp. -/
theorem c5_witness :
    (cleanup c5state 0).processedTweets.length = 1000
    ∧ c5dropped.2.processedAt ≤ c5kept.2.processedAt
    ∧ c5boundary.2.processedAt ≤ c5kept.2.processedAt :=
  ⟨((c5_cleanup_keeps_most_recent_1000 c5state 0).2.2.2 (by decide)).1,
   (c5_cleanup_keeps_most_recent_1000 c5state 0).2.2.1 c5kept (by decide)
     c5dropped (by decide) (by decide),
   ((c5_cleanup_keeps_most_recent_1000 c5state 0).2.2.2 (by decide)).2 c5kept (by decide)
     c5boundary (by decide)⟩
